import Mathlib

/-!
Verification of `src/json2html.js`: a single function turning an array of
flat JSON objects into an HTML table string.

The embedding models a JS object (record) as an association list of
string keys and primitive values, kept in the object's native key order.
Every definition below mirrors one line of the source file.
-/

namespace Json2Html

/-- A primitive JS value that can appear in a record. JS numbers are
modelled as integers; the claims only speak of integral values. -/
inductive Value where
  | vNull
  | vUndef
  | vBool (b : Bool)
  | vNum (n : Int)
  | vStr (s : String)
deriving DecidableEq, Repr

/-- A flat JS object: keys with their values, in native key order. -/
abbrev Record := List (String × Value)

/-- `Object.keys(r)`: the record's own keys in native order. -/
def objectKeys (r : Record) : List String := r.map Prod.fst

/-- JS truthiness: `null`, `undefined`, `false`, `0` and `""` are falsy. -/
def truthy : Value → Bool
  | .vNull => false
  | .vUndef => false
  | .vBool b => b
  | .vNum n => n != 0
  | .vStr s => s != ""

/-- JS string conversion as performed by a template literal. -/
def Value.toStr : Value → String
  | .vNull => "null"
  | .vUndef => "undefined"
  | .vBool b => if b then "true" else "false"
  | .vNum n => toString n
  | .vStr s => s

/-- `row[header]`: property lookup on the record, `none` when absent. -/
def getProp (r : Record) (k : String) : Option Value :=
  match r with
  | [] => none
  | (k', v) :: rest => if k' = k then some v else getProp rest k

/-- `${row[header] || ''}`: the text placed inside a `<td>` cell. -/
def cellContent (r : Record) (k : String) : String :=
  match getProp r k with
  | none => ""
  | some v => if truthy v then v.toStr else ""

/-- Adding one element to a JS `Set` (insertion order preserved). -/
def insertKey (acc : List String) (k : String) : List String :=
  if k ∈ acc then acc else acc ++ [k]

/-- `[...new Set(data.flatMap(Object.keys))]` (line 5 of the source). -/
def headers (data : List Record) : List String :=
  (data.flatMap objectKeys).foldl insertKey []

/-- `` `<th>${header}</th>` `` -/
def thCell (k : String) : String := "<th>" ++ k ++ "</th>"

/-- `` `<td>${row[header] || ''}</td>` `` -/
def tdCell (r : Record) (k : String) : String :=
  "<td>" ++ cellContent r k ++ "</td>"

/-- The list of `<td>` cells of one body row, one per header. -/
def rowCells (hs : List String) (r : Record) : List String :=
  hs.map (tdCell r)

/-- One body row: `` `<tr>${...join('')}</tr>` `` (lines 15-17). -/
def rowString (hs : List String) (r : Record) : String :=
  "<tr>" ++ String.join (rowCells hs r) ++ "</tr>"

/-- The hard-coded `data-user` attribute value baked into the markup. -/
def dataUserAttr : String := "bingikarthik2014@gmail.com"

/-- The whole function `json2html` (lines 3-21 of the source). -/
def json2html (data : List Record) : String :=
  let hs := headers data
  let html0 := "<table data-user=\"" ++ dataUserAttr ++ "\"><thead><tr>"
  let html1 := html0 ++ String.join (hs.map thCell)
  let html2 := html1 ++ "</tr></thead><tbody>"
  let html3 := html2 ++ String.join (data.map (rowString hs))
  html3 ++ "</tbody></table>"

/-- Spec-side rendering, written from the output-format line of the spec:
`<table data-user="EMAIL"><thead><tr>` then one `<th>header</th>` per
header, then `</tr></thead><tbody>`, then per record one `<tr>` holding
one `<td>value</td>` per header, then `</tbody></table>`. -/
def specRender (data : List Record) : String :=
  "<table data-user=\"" ++ dataUserAttr ++ "\"><thead><tr>"
    ++ String.join ((headers data).map (fun k => "<th>" ++ k ++ "</th>"))
    ++ "</tr></thead><tbody>"
    ++ String.join (data.map (fun r =>
        "<tr>"
          ++ String.join ((headers data).map
              (fun k => "<td>" ++ cellContent r k ++ "</td>"))
          ++ "</tr>"))
    ++ "</tbody></table>"

/-- Spec-side header derivation: first-seen order, each key kept once. -/
def firstSeen : List String → List String
  | [] => []
  | k :: ks => k :: firstSeen (ks.filter (fun x => x ≠ k))
termination_by l => l.length
decreasing_by
  exact Nat.lt_succ_of_le (List.length_filter_le _ _)

/-- The spec's enumeration of the falsy values. -/
def falsySpec (v : Value) : Prop :=
  v = .vNull ∨ v = .vUndef ∨ v = .vBool false ∨ v = .vNum 0 ∨ v = .vStr ""

instance (v : Value) : Decidable (falsySpec v) := by
  unfold falsySpec
  infer_instance

end Json2Html

namespace Json2Html

theorem foldl_insertKey (l : List String) : ∀ acc : List String,
    l.foldl insertKey acc = acc ++ firstSeen (l.filter (fun x => x ∉ acc)) := by
  induction l with
  | nil => intro acc; simp [firstSeen]
  | cons k ks ih =>
    intro acc
    simp only [List.foldl_cons, List.filter_cons]
    by_cases hk : k ∈ acc
    · have hd : decide (k ∉ acc) = false := by simp [hk]
      rw [hd]
      simp only [Bool.false_eq_true, if_false]
      rw [insertKey, if_pos hk]
      exact ih acc
    · have hd : decide (k ∉ acc) = true := by simp [hk]
      rw [hd]
      simp only [if_true]
      rw [insertKey, if_neg hk, ih (acc ++ [k]), firstSeen]
      rw [List.append_assoc, List.singleton_append]
      congr 2
      rw [List.filter_filter]
      refine congrArg firstSeen (List.filter_congr ?_)
      intro x _
      by_cases h1 : x = k <;> by_cases h2 : x ∈ acc <;>
        simp [h1, h2, List.mem_append]

theorem headers_eq_firstSeen (data : List Record) :
    headers data = firstSeen (data.flatMap objectKeys) := by
  rw [headers, foldl_insertKey]
  simp

theorem mem_firstSeen_of_mem : ∀ (l : List String) (x : String),
    x ∈ l → x ∈ firstSeen l := by
  intro l
  induction l using firstSeen.induct with
  | case1 => intro x hx; simp at hx
  | case2 k ks ih =>
    intro x hx
    rw [firstSeen]
    rcases List.mem_cons.mp hx with h | h
    · exact h ▸ List.mem_cons_self _ _
    · by_cases hxk : x = k
      · exact hxk ▸ List.mem_cons_self _ _
      · refine List.mem_cons_of_mem _ (ih x ?_)
        rw [List.mem_filter]
        exact ⟨h, by simp [hxk]⟩

theorem mem_of_mem_firstSeen : ∀ (l : List String) (x : String),
    x ∈ firstSeen l → x ∈ l := by
  intro l
  induction l using firstSeen.induct with
  | case1 => intro x hx; rw [firstSeen] at hx; simp at hx
  | case2 k ks ih =>
    intro x hx
    rw [firstSeen] at hx
    rcases List.mem_cons.mp hx with h | h
    · exact h ▸ List.mem_cons_self _ _
    · exact List.mem_cons_of_mem _ (List.mem_filter.mp (ih x h)).1

theorem nodup_firstSeen : ∀ l : List String, (firstSeen l).Nodup := by
  intro l
  induction l using firstSeen.induct with
  | case1 => rw [firstSeen]; exact List.nodup_nil
  | case2 k ks ih =>
    rw [firstSeen]
    refine List.nodup_cons.mpr ⟨?_, ih⟩
    intro hk
    have := (List.mem_filter.mp (mem_of_mem_firstSeen _ _ hk)).2
    simp at this

/-- C2: the headers are the unique keys of the records in first-seen
order: the records are scanned left to right, each record's own keys in
native order, and a key is kept exactly at its first occurrence; on
`[{b:1,a:2},{c:3}]` the headers are `[b, a, c]`. -/
theorem c2_headers_first_seen_order (data : List Record) :
    headers data = firstSeen (data.flatMap objectKeys) ∧
    headers [[("b", Value.vNum 1), ("a", Value.vNum 2)],
             [("c", Value.vNum 3)]] = ["b", "a", "c"] :=
  ⟨headers_eq_firstSeen data, by decide⟩

/-- C6: the headers never repeat a key, and a key occurring in several
records yields exactly one header: on `[{a:1},{a:2}]` the key `a` occurs
exactly once among the headers. -/
theorem c6_headers_nodup (data : List Record) :
    (headers data).Nodup ∧
    (headers [[("a", Value.vNum 1)], [("a", Value.vNum 2)]]).count "a" = 1 := by
  refine ⟨?_, by decide⟩
  rw [headers_eq_firstSeen]
  exact nodup_firstSeen _

/-- C5: on the empty input the headers are empty and the output is the
bare wrapper with an empty header row and an empty body. -/
theorem c5_empty_input :
    headers [] = [] ∧
    json2html [] =
      "<table data-user=\"bingikarthik2014@gmail.com\"><thead><tr></tr></thead><tbody></tbody></table>" := by
  constructor
  · rfl
  · rfl

/-- C8: the function is a pure function of its argument: two calls on the
same input give byte-identical strings, and inputs that are equal as
values give equal outputs (no hidden state enters the result). -/
theorem c8_deterministic (data : List Record) :
    json2html data = json2html data ∧
    ∀ d₂ : List Record, d₂ = data → json2html d₂ = json2html data := by
  exact ⟨rfl, fun d₂ h => h ▸ rfl⟩

theorem c8_deterministic_witness :
    json2html [[("a", Value.vNum 1)]] = json2html [[("a", Value.vNum 1)]] :=
  (c8_deterministic [[("a", Value.vNum 1)]]).2 [[("a", Value.vNum 1)]] rfl

/-- C1: the output is exactly the concatenation the spec describes, with
the hard-coded `data-user` attribute value independent of the input, and
one body row per input record in input order (an empty record still
yields its own `<tr>` element). -/
theorem c1_output_concatenation (data : List Record) :
    json2html data = specRender data ∧
    (data.map (rowString (headers data))).length = data.length ∧
    rowString (headers data) [] = "<tr>" ++ String.join (rowCells (headers data) []) ++ "</tr>" :=
  ⟨rfl, List.length_map _ _, rfl⟩

/-- C4: every body row carries exactly one `<td>` cell per header. -/
theorem c4_row_cell_count (data : List Record) (r : Record) (hr : r ∈ data) :
    rowString (headers data) r ∈ data.map (rowString (headers data)) ∧
    (rowCells (headers data) r).length = (headers data).length :=
  ⟨List.mem_map_of_mem _ hr, List.length_map _ _⟩

theorem c4_row_cell_count_witness :
    (rowCells (headers [[("a", Value.vNum 1), ("b", Value.vNum 2)], []])
        [("a", Value.vNum 1), ("b", Value.vNum 2)]).length =
      (headers [[("a", Value.vNum 1), ("b", Value.vNum 2)], []]).length :=
  (c4_row_cell_count [[("a", Value.vNum 1), ("b", Value.vNum 2)], []]
    [("a", Value.vNum 1), ("b", Value.vNum 2)] (by decide)).2

theorem toDigitsCore_length_le (b : Nat) :
    ∀ (f n : Nat) (ds : List Char), ds.length ≤ (Nat.toDigitsCore b f n ds).length := by
  intro f
  induction f with
  | zero => intro n ds; rw [Nat.toDigitsCore]
  | succ f ih =>
    intro n ds
    rw [Nat.toDigitsCore]
    split
    · simp
    · exact le_trans (Nat.le_succ _) (ih (n / b) (Nat.digitChar (n % b) :: ds))

theorem toDigits_length_pos (b n : Nat) : 1 ≤ (Nat.toDigits b n).length := by
  rw [Nat.toDigits, Nat.toDigitsCore]
  split
  · simp
  · exact toDigitsCore_length_le b n (n / b) [Nat.digitChar (n % b)]

theorem nat_repr_ne_empty (n : Nat) : Nat.repr n ≠ "" := by
  intro hc
  have h1 := toDigits_length_pos 10 n
  have h2 : (Nat.toDigits 10 n).length = 0 := congrArg String.length hc
  rw [h2] at h1
  exact absurd h1 (by decide)

theorem int_toString_ne_empty (n : Int) : toString n ≠ "" := by
  cases n with
  | ofNat m => exact nat_repr_ne_empty m
  | negSucc m =>
    intro hc
    have h2 : ("-" ++ Nat.repr (m + 1)).length = 0 := congrArg String.length hc
    rw [String.length_append] at h2
    have h3 : ("-" : String).length = 1 := rfl
    omega

theorem truthy_toStr_ne_empty (v : Value) (hv : truthy v = true) :
    Value.toStr v ≠ "" := by
  cases v with
  | vNull => simp [truthy] at hv
  | vUndef => simp [truthy] at hv
  | vBool b =>
    cases b
    · simp [truthy] at hv
    · simp [Value.toStr]
  | vNum n => exact int_toString_ne_empty n
  | vStr s => simpa [truthy] using hv

theorem not_truthy_iff_falsySpec (v : Value) : truthy v = false ↔ falsySpec v := by
  cases v with
  | vNull => simp [truthy, falsySpec]
  | vUndef => simp [truthy, falsySpec]
  | vBool b => cases b <;> simp [truthy, falsySpec]
  | vNum n => simp [truthy, falsySpec]
  | vStr s => simp [truthy, falsySpec]

/-- C3: a `<td>` cell is empty exactly when the record's value for the
key is absent or falsy (`null`, `undefined`, `false`, `0`, `""`), and a
present truthy value is rendered by its string representation. -/
theorem c3_cell_empty_iff_absent_or_falsy (r : Record) (k : String) :
    (cellContent r k = "" ↔
      getProp r k = none ∨ ∃ v, getProp r k = some v ∧ falsySpec v) ∧
    (∀ v, getProp r k = some v → ¬ falsySpec v → cellContent r k = v.toStr) := by
  constructor
  · cases h : getProp r k with
    | none => simp [cellContent, h]
    | some v =>
      cases ht : truthy v with
      | true =>
        simp only [cellContent, h, ht, if_true, reduceCtorEq, false_or,
          Option.some.injEq]
        constructor
        · intro he; exact absurd he (truthy_toStr_ne_empty v ht)
        · rintro ⟨w, rfl, hw⟩
          have hfv := (not_truthy_iff_falsySpec v).mpr hw
          rw [ht] at hfv
          exact Bool.noConfusion hfv
      | false =>
        simp only [cellContent, h, ht, Bool.false_eq_true, if_false,
          reduceCtorEq, false_or, Option.some.injEq, true_iff]
        exact ⟨v, rfl, (not_truthy_iff_falsySpec v).mp ht⟩
  · intro v hv hnf
    have ht : truthy v = true := by
      cases htv : truthy v with
      | true => rfl
      | false => exact absurd ((not_truthy_iff_falsySpec v).mp htv) hnf
    simp [cellContent, hv, ht]

theorem c3_cell_empty_witness :
    cellContent [("a", Value.vNum 0)] "a" = "" ∧
    cellContent [("b", Value.vStr "x")] "b" = (Value.vStr "x").toStr :=
  ⟨(c3_cell_empty_iff_absent_or_falsy [("a", Value.vNum 0)] "a").1.mpr
      (Or.inr ⟨Value.vNum 0, rfl, by decide⟩),
   (c3_cell_empty_iff_absent_or_falsy [("b", Value.vStr "x")] "b").2
      (Value.vStr "x") rfl (by decide)⟩

theorem foldl_append_init (l : List String) : ∀ init : String,
    l.foldl (fun r s => r ++ s) init = init ++ l.foldl (fun r s => r ++ s) "" := by
  induction l with
  | nil => intro init; simp
  | cons a l ih =>
    intro init
    simp only [List.foldl_cons]
    rw [ih (init ++ a), ih ("" ++ a)]
    simp [String.append_assoc]

theorem join_cons (a : String) (l : List String) :
    String.join (a :: l) = a ++ String.join l := by
  simp only [String.join, List.foldl_cons]
  rw [foldl_append_init]
  simp

theorem join_map_split {α : Type} (f : α → String) :
    ∀ (l : List α) (x : α), x ∈ l → ∃ p s, String.join (l.map f) = p ++ f x ++ s := by
  intro l
  induction l with
  | nil => intro x hx; simp at hx
  | cons a l ih =>
    intro x hx
    rcases List.mem_cons.mp hx with h | h
    · subst h
      exact ⟨"", String.join (l.map f), by rw [List.map_cons, join_cons]; rfl⟩
    · obtain ⟨p, s, hps⟩ := ih x h
      exact ⟨f a ++ p, s, by
        rw [List.map_cons, join_cons, hps]
        simp [String.append_assoc]⟩

theorem split_trans {t p m s q u x : String}
    (h₁ : t = p ++ m ++ s) (h₂ : m = q ++ x ++ u) :
    ∃ a b, t = a ++ x ++ b :=
  ⟨p ++ q, u ++ s, by rw [h₁, h₂]; simp [String.append_assoc]⟩

theorem json2html_split_headers (data : List Record) :
    ∃ p s, json2html data = p ++ String.join ((headers data).map thCell) ++ s :=
  ⟨"<table data-user=\"" ++ dataUserAttr ++ "\"><thead><tr>",
   "</tr></thead><tbody>" ++ String.join (data.map (rowString (headers data)))
     ++ "</tbody></table>",
   by simp [json2html, String.append_assoc]⟩

theorem json2html_split_body (data : List Record) :
    ∃ p s, json2html data =
      p ++ String.join (data.map (rowString (headers data))) ++ s :=
  ⟨"<table data-user=\"" ++ dataUserAttr ++ "\"><thead><tr>"
     ++ String.join ((headers data).map thCell) ++ "</tr></thead><tbody>",
   "</tbody></table>", by simp [json2html, String.append_assoc]⟩

theorem getProp_some_mem_keys (r : Record) (k : String) (v : Value)
    (h : getProp r k = some v) : k ∈ objectKeys r := by
  induction r with
  | nil => rw [getProp] at h; exact Option.noConfusion h
  | cons p rest ih =>
    obtain ⟨k', v'⟩ := p
    rw [getProp] at h
    by_cases hk : k' = k
    · subst hk
      exact List.mem_cons_self _ _
    · rw [if_neg hk] at h
      exact List.mem_cons_of_mem _ (ih h)

/-- C7: no HTML escaping happens: every header key and every truthy
value's string representation occurs verbatim as a contiguous segment of
the output, whatever characters it contains. -/
theorem c7_no_escaping (data : List Record) :
    (∀ k, k ∈ headers data → ∃ p s, json2html data = p ++ k ++ s) ∧
    (∀ r, r ∈ data → ∀ k v, getProp r k = some v → truthy v = true →
      ∃ p s, json2html data = p ++ Value.toStr v ++ s) := by
  constructor
  · intro k hk
    obtain ⟨p₁, s₁, h₁⟩ := json2html_split_headers data
    obtain ⟨p₂, s₂, h₂⟩ := join_map_split thCell (headers data) k hk
    obtain ⟨a, b, hab⟩ := split_trans h₁ h₂
    exact split_trans hab (rfl : thCell k = "<th>" ++ k ++ "</th>")
  · intro r hr k v hv htv
    have hkh : k ∈ headers data := by
      rw [headers_eq_firstSeen]
      exact mem_firstSeen_of_mem _ _
        (List.mem_flatMap.mpr ⟨r, hr, getProp_some_mem_keys r k v hv⟩)
    obtain ⟨p₁, s₁, h₁⟩ := json2html_split_body data
    obtain ⟨p₂, s₂, h₂⟩ := join_map_split (rowString (headers data)) data r hr
    obtain ⟨a₁, b₁, hab₁⟩ := split_trans h₁ h₂
    obtain ⟨a₂, b₂, hab₂⟩ := split_trans hab₁
      (rfl : rowString (headers data) r
        = "<tr>" ++ String.join (rowCells (headers data) r) ++ "</tr>")
    obtain ⟨p₃, s₃, h₃⟩ := join_map_split (tdCell r) (headers data) k hkh
    obtain ⟨a₃, b₃, hab₃⟩ := split_trans hab₂ h₃
    have hcell : tdCell r k = "<td>" ++ Value.toStr v ++ "</td>" := by
      simp [tdCell, cellContent, hv, htv]
    exact split_trans hab₃ hcell

theorem c7_no_escaping_witness :
    (∃ p s, json2html [[("a<b", Value.vStr "x&y")]] = p ++ "a<b" ++ s) ∧
    (∃ p s, json2html [[("a<b", Value.vStr "x&y")]]
      = p ++ Value.toStr (Value.vStr "x&y") ++ s) :=
  ⟨(c7_no_escaping [[("a<b", Value.vStr "x&y")]]).1 "a<b" (by decide),
   (c7_no_escaping [[("a<b", Value.vStr "x&y")]]).2
     [("a<b", Value.vStr "x&y")] (by decide) "a<b" (Value.vStr "x&y")
     (by decide) (by decide)⟩

/-- C9: truthy values render under the host string conversion: `true`
gives `<td>true</td>`, a nonzero number gives its decimal form, and the
truthy string `"0"` gives `<td>0</td>`. -/
theorem c9_truthy_rendering (r : Record) (k : String) :
    (getProp r k = some (Value.vBool true) → tdCell r k = "<td>true</td>") ∧
    (∀ n : Int, n ≠ 0 → getProp r k = some (Value.vNum n) →
      tdCell r k = "<td>" ++ toString n ++ "</td>") ∧
    (getProp r k = some (Value.vStr "0") → tdCell r k = "<td>0</td>") := by
  refine ⟨?_, ?_, ?_⟩
  · intro h
    simp [tdCell, cellContent, h, truthy, Value.toStr]
  · intro n hn h
    simp [tdCell, cellContent, h, truthy, Value.toStr, hn]
  · intro h
    simp [tdCell, cellContent, h, truthy, Value.toStr]

theorem c9_truthy_rendering_witness :
    tdCell [("a", Value.vBool true), ("b", Value.vNum (-5)), ("c", Value.vStr "0")]
        "a" = "<td>true</td>" ∧
    tdCell [("a", Value.vBool true), ("b", Value.vNum (-5)), ("c", Value.vStr "0")]
        "b" = "<td>" ++ toString (-5 : Int) ++ "</td>" ∧
    tdCell [("a", Value.vBool true), ("b", Value.vNum (-5)), ("c", Value.vStr "0")]
        "c" = "<td>0</td>" :=
  ⟨(c9_truthy_rendering _ "a").1 (by decide),
   (c9_truthy_rendering _ "b").2.1 (-5) (by decide) (by decide),
   (c9_truthy_rendering _ "c").2.2 (by decide)⟩

/-- C10: locality. If two inputs have record-for-record identical key
lists and agree on every record and key except possibly the value one
designated record associates to one designated key, then the headers
agree, every other body row renders identically, and within the changed
record every cell of a column other than the designated key renders
identically. -/
theorem c10_locality (d₁ d₂ : List Record) (i : Nat) (k : String)
    (hkeys : d₁.map objectKeys = d₂.map objectKeys)
    (hrows : ∀ j : Nat, j ≠ i → d₁[j]? = d₂[j]?)
    (hcell : ∀ r₁ r₂, d₁[i]? = some r₁ → d₂[i]? = some r₂ →
      ∀ k', k' ≠ k → getProp r₁ k' = getProp r₂ k') :
    headers d₁ = headers d₂ ∧
    (∀ j : Nat, j ≠ i →
      (d₁.map (rowString (headers d₁)))[j]? = (d₂.map (rowString (headers d₂)))[j]?) ∧
    (∀ r₁ r₂, d₁[i]? = some r₁ → d₂[i]? = some r₂ →
      ∀ k', k' ≠ k → tdCell r₁ k' = tdCell r₂ k') := by
  have hh : headers d₁ = headers d₂ := by
    rw [headers, headers, List.flatMap_def, List.flatMap_def, hkeys]
  refine ⟨hh, ?_, ?_⟩
  · intro j hj
    rw [List.getElem?_map, List.getElem?_map, hrows j hj, hh]
  · intro r₁ r₂ h₁ h₂ k' hk'
    simp only [tdCell, cellContent, hcell r₁ r₂ h₁ h₂ k' hk']

theorem c10_locality_witness :
    headers [[("a", Value.vNum 1), ("b", Value.vNum 2)]] =
      headers [[("a", Value.vNum 9), ("b", Value.vNum 2)]] ∧
    (∀ j : Nat, j ≠ 0 →
      ([[("a", Value.vNum 1), ("b", Value.vNum 2)]].map
          (rowString (headers [[("a", Value.vNum 1), ("b", Value.vNum 2)]])))[j]? =
      ([[("a", Value.vNum 9), ("b", Value.vNum 2)]].map
          (rowString (headers [[("a", Value.vNum 9), ("b", Value.vNum 2)]])))[j]?) ∧
    (∀ r₁ r₂, [[("a", Value.vNum 1), ("b", Value.vNum 2)]][0]? = some r₁ →
      [[("a", Value.vNum 9), ("b", Value.vNum 2)]][0]? = some r₂ →
      ∀ k', k' ≠ "a" → tdCell r₁ k' = tdCell r₂ k') :=
  c10_locality [[("a", Value.vNum 1), ("b", Value.vNum 2)]]
    [[("a", Value.vNum 9), ("b", Value.vNum 2)]] 0 "a"
    (by decide)
    (fun j hj => by
      cases j with
      | zero => exact absurd rfl hj
      | succ m => rfl)
    (fun r₁ r₂ h₁ h₂ k' hk' => by
      injection h₁ with h₁
      injection h₂ with h₂
      subst h₁
      subst h₂
      have hne : ¬("a" = k') := fun h => hk' h.symm
      simp [getProp, hne])

end Json2Html
